import Mathlib

/-!
Verification development for the dataframe-js core (src/dataframe.js) and its
SQL registry module (src/modules/sql.js).

The JavaScript source is shallowly embedded below.  JavaScript numbers that
the claims exercise are modelled as integers (`Int`); `typeof` tags are kept
as their literal JS strings.  The helper files `reusables.js`, `row.js`,
`groupedDataframe.js` and `errors.js` are not part of the sources; the
definitions taken from them are modelled from the specification and are
marked as such in their doc comments.
-/

/-- A JavaScript value as stored in a DataFrame cell.  Numbers are modelled
as integers; `undefined` is the explicit no-value sentinel (`undefined`). -/
inductive Value where
  | num  (n : Int)
  | str  (s : String)
  | bool (b : Bool)
  | undefined
deriving DecidableEq

/-- The JavaScript `typeof` tag of a value, as its literal string. -/
def Value.typeOf : Value → String
  | .num _  => "number"
  | .str _  => "string"
  | .bool _ => "boolean"
  | .undefined  => "undefined"

/-- JavaScript subtraction `p - n` as used by the `sortBy` comparator, after
the engine's SortCompare step (a NaN comparator result is treated as `+0`).
Numbers subtract exactly; booleans coerce to `1`/`0`; strings coerce through
`ToNumber`, modelled here for integer-literal strings (other strings produce
NaN, hence `0`); `undefined` produces NaN, hence `0`.  Pairs of differing
`typeof` never reach this function (see `jsCompare`). -/
def Value.sub : Value → Value → Int
  | .num a, .num b => a - b
  | .bool a, .bool b => (if a then 1 else 0) - (if b then 1 else 0)
  | .str a, .str b =>
    match a.toInt?, b.toInt? with
    | some x, some y => x - y
    | _, _ => 0
  | _, _ => 0

/-- Modelled from the spec: a Row (`row.js` is not among the sources) is an
immutable ordered mapping from column name to value, projected/padded to
exactly its DataFrame's schema (spec section 3). -/
structure Row where
  entries : List (String × Value)
deriving DecidableEq

/-- Row lookup: the value stored under column `c`, or the `undefined`
sentinel when the column is absent. -/
def Row.get (r : Row) (c : String) : Value :=
  (r.entries.lookup c).getD .undefined

/-- Modelled from the spec: building a Row from a positional array against a
schema (`new Row(arrayRow, columns)` in the missing `row.js`): values are
taken positionally, missing positions filled with the sentinel. -/
def Row.ofArray (cols : List String) (vals : List Value) : Row :=
  ⟨cols.zip (vals ++ List.replicate cols.length Value.undefined)⟩

/-- Modelled from the spec: building a Row from an existing Row against a
schema (`new Row(row, columns)` in the missing `row.js`): values present by
name are preserved, new columns receive the sentinel (spec sections 3, 4.1). -/
def Row.proj (cols : List String) (r : Row) : Row :=
  ⟨cols.map (fun c => (c, r.get c))⟩

/-- Row export: the values in schema order (`row.toArray()`). -/
def Row.toArray (r : Row) : List Value :=
  r.entries.map Prod.snd

/-- A DataFrame: an ordered sequence of Rows plus the schema
(`this[__rows__]` and `this[__columns__]` in `dataframe.js`). -/
structure DataFrame where
  rows : List Row
  columns : List String
deriving DecidableEq

/-- The error conditions of the library.  The classes live in the missing
`errors.js`; the constructors here name the conditions raised by the embedded
code.  `emptyReduce` stands for the native `TypeError` raised by
`Array.prototype.reduce` on an empty array with no initial value. -/
inductive DfError where
  | inputType
  | wrongSchema
  | mixedType
  | tableExists
  | emptyReduce
deriving DecidableEq

/-- Removes the first space of a character list, keeping the rest: the
behaviour of JavaScript `String.prototype.replace(' ', '')`, whose string
pattern replaces only the first occurrence. -/
def dropFirstSpace : List Char → List Char
  | [] => []
  | c :: cs => if c = ' ' then cs else c :: dropFirstSpace cs

/-- Column-name normalization of one name (`_dropSpacesInColumnNames`,
dataframe.js line 81, applied to a single name): only the first space is
removed because `replace` is called with a plain string pattern. -/
def dropSpacesCol (s : String) : String :=
  ⟨dropFirstSpace s.data⟩

/-- Embeds `DataFrame._dropSpacesInColumnNames` (dataframe.js lines 80-82)
for a present (non-undefined) column list. -/
def dropSpacesCols (cols : List String) : List String :=
  cols.map dropSpacesCol

/-- Embeds construction `new DataFrame(arrayOfArrays, columns)` with an
explicit column list: constructor (lines 49-53) normalizes the names once and
`_fromArray` (lines 110-112) wraps each positional array as a Row. -/
def DataFrame.ofRows (data : List (List Value)) (columns : List String) : DataFrame :=
  let cols := dropSpacesCols columns
  ⟨data.map (fun vals => Row.ofArray cols vals), cols⟩

/-- Embeds `DataFrame.count` (line 277). -/
def DataFrame.count (d : DataFrame) : Nat :=
  d.rows.length

/-- Embeds `DataFrame.listColumns` (line 351). -/
def DataFrame.listColumns (d : DataFrame) : List String :=
  d.columns

/-- Embeds `DataFrame.toArray()` without a column argument (line 155). -/
def DataFrame.toArray (d : DataFrame) : List (List Value) :=
  d.rows.map Row.toArray

/-- Embeds `DataFrame.toArray(columnName)` with a column argument (line 155). -/
def DataFrame.toArrayCol (d : DataFrame) (c : String) : List Value :=
  d.rows.map (fun r => r.get c)

/-- Embeds `DataFrame.__newInstance__(data, columns)` (lines 61-71) for call
sites whose `data` is an array of Row objects.  When the columns equal the
receiver's and the first element is a Row (the array is non-empty), the rows
are shared and the column names are space-normalized once; otherwise the full
constructor runs, normalizing the names a second time and rebuilding each Row
against the new schema. -/
def DataFrame.newInstanceOfRows (d : DataFrame) (rs : List Row) (cols : List String) : DataFrame :=
  if cols = d.columns ∧ rs ≠ [] then
    ⟨rs, dropSpacesCols cols⟩
  else
    let cols2 := dropSpacesCols (dropSpacesCols cols)
    ⟨rs.map (Row.proj cols2), cols2⟩

theorem newInstanceOfRows_rows (d : DataFrame) (rs : List Row) :
    (d.newInstanceOfRows rs d.columns).rows = rs := by
  unfold DataFrame.newInstanceOfRows
  by_cases h : rs = []
  · subst h; simp
  · simp [h]

/-! ### Filtering (`DataFrame.filter`, dataframe.js lines 463-469) -/

/-- The duck-typed `condition` argument of `filter`/`where`: either a row
function returning a boolean, or a column-to-value equality object whose
`Object.entries` are kept in insertion order. -/
inductive Condition where
  | func (p : Row → Bool)
  | mapping (pairs : List (String × Value))

/-- The per-row predicate built at the top of `filter` (lines 464-466).  The
object form maps each pair to `Object.is(row.get(column), value)` and
conjoins the results with `reduce((p, n) => p && n)`, which throws the native
empty-reduce `TypeError` when the object has no entries. -/
def Condition.eval : Condition → Row → Except DfError Bool
  | .func p, r => .ok (p r)
  | .mapping [], _ => .error .emptyReduce
  | .mapping (q :: qs), r =>
    .ok (qs.foldl (fun acc e => acc && decide (r.get e.1 = e.2)) (decide (r.get q.1 = q.2)))

/-- The row traversal of `filter`: `iter(rows, row => func(row) ? row : false)`
(`iter` is from the missing `reusables.js`; modelled from the spec as the
shared lazy iterate-with-stop utility that yields non-false results).  The
condition is evaluated on each row in order and rows mapping to `false` are
dropped; a thrown error propagates. -/
def filterRowsE (f : Row → Except DfError Bool) : List Row → Except DfError (List Row)
  | [] => .ok []
  | r :: rs =>
    match f r with
    | .error e => .error e
    | .ok b =>
      match filterRowsE f rs with
      | .error e => .error e
      | .ok rest => .ok (if b then r :: rest else rest)

/-- Embeds `DataFrame.filter` (lines 463-469): keeps the matching rows; when
no row matches, returns `__newInstance__([], [])`, an empty DataFrame with an
empty schema. -/
def DataFrame.filter (d : DataFrame) (cond : Condition) : Except DfError DataFrame :=
  match filterRowsE cond.eval d.rows with
  | .error e => .error e
  | .ok rs =>
    .ok (if rs.length > 0 then d.newInstanceOfRows rs d.columns
         else d.newInstanceOfRows [] [])

/-! ### Chain fusion (`DataFrame.chain`, dataframe.js lines 451-453) -/

/-- Modelled from the spec: one step of a chain (section 4.4).  The source
classifies a step by the runtime type of its result (boolean means filter,
Row means map); the classification is embedded as a tagged sum. -/
inductive Step where
  | filterStep (p : Row → Bool)
  | mapStep (f : Row → Row)

/-- Modelled from the spec: the single-traversal application of the chained
steps to one row (the `chain` generator of the missing `reusables.js`,
spec section 4.4): steps run in order; a filter step returning false drops
the row at once, a map step replaces it. -/
def applySteps : List Step → Row → Option Row
  | [], r => some r
  | .filterStep p :: ss, r => if p r then applySteps ss r else none
  | .mapStep f :: ss, r => applySteps ss (f r)

/-- Modelled from the spec: the chained rows are produced in one traversal,
keeping each row that survives every step (spec section 4.4). -/
def chainRows (steps : List Step) (rows : List Row) : List Row :=
  rows.filterMap (applySteps steps)

/-- Embeds `DataFrame.chain` (lines 451-453): the fused rows under the
receiver's columns, through `__newInstance__`. -/
def DataFrame.chain (d : DataFrame) (steps : List Step) : DataFrame :=
  d.newInstanceOfRows (chainRows steps d.rows) d.columns

/-- Sequential application of the same steps as plain `.filter()`/`.map()`
calls at the row-sequence level, materializing an intermediate row list
between steps. -/
def seqRows (steps : List Step) (rows : List Row) : List Row :=
  steps.foldl
    (fun rs s =>
      match s with
      | .filterStep p => rs.filter p
      | .mapStep f => rs.map f)
    rows

/-! ### Sorting (`DataFrame.sortBy`, dataframe.js lines 620-627) -/

/-- The `sortBy` comparator (lines 621-625): throws `MixedTypeError` when the
two column values have different `typeof` tags, otherwise returns their
subtraction (as seen by the engine's SortCompare, see `Value.sub`). -/
def jsCompare (c : String) (p n : Row) : Except DfError Int :=
  if (p.get c).typeOf = (n.get c).typeOf then .ok (Value.sub (p.get c) (n.get c))
  else .error .mixedType

/-- One insertion step of the sort.  `Array.prototype.sort` leaves its
algorithm to the engine; it is modelled as a stable insertion sort, whose
observable outcomes under a consistent comparator (a comparator-ascending
permutation, or the comparator's thrown error on mixed types) are the ones
the specification describes. -/
def insertE (c : String) (r : Row) : List Row → Except DfError (List Row)
  | [] => .ok [r]
  | x :: xs =>
    match jsCompare c r x with
    | .error e => .error e
    | .ok v =>
      if v < 0 then .ok (r :: x :: xs)
      else
        match insertE c r xs with
        | .error e => .error e
        | .ok t => .ok (x :: t)

/-- The full sort of the row list by the `sortBy` comparator on column `c`. -/
def sortRowsE (c : String) : List Row → Except DfError (List Row)
  | [] => .ok []
  | r :: rs =>
    match sortRowsE c rs with
    | .error e => .error e
    | .ok s => insertE c r s

/-- Embeds `DataFrame.sortBy(columnName, reverse)` (lines 620-627): sorts by
the subtraction comparator, reverses the final order when `reverse` is true,
and wraps the result through `__newInstance__`. -/
def DataFrame.sortBy (d : DataFrame) (c : String) (rev : Bool) : Except DfError DataFrame :=
  match sortRowsE c d.rows with
  | .error e => .error e
  | .ok sorted => .ok (d.newInstanceOfRows (if rev then sorted.reverse else sorted) d.columns)

/-- The receiver's internal row array after a successful `d.sortBy(c, rev)`
call: `Array.prototype.sort` (and `Array.prototype.reverse`) work in place on
`this[__rows__]` (lines 621, 626), so the receiver ends up holding the sorted
(and possibly reversed) sequence.  The partially-sorted state left behind by
a thrown comparator is not modelled: on error the original rows are kept. -/
def sortByReceiverRows (d : DataFrame) (c : String) (rev : Bool) : List Row :=
  match sortRowsE c d.rows with
  | .ok sorted => if rev then sorted.reverse else sorted
  | .error _ => d.rows

/-! ### Union and positional rename -/

/-- Embeds `DataFrame.union` (lines 636-641): schemas must be equal as
ordered lists (`arrayEqual` is from the missing `reusables.js`; modelled from
the spec as ordered equality, "same names, same order"), else
`WrongSchemaError`; the rows are concatenated through `__newInstance__`. -/
def DataFrame.union (a b : DataFrame) : Except DfError DataFrame :=
  if a.columns = b.columns then .ok (a.newInstanceOfRows (a.rows ++ b.rows) a.columns)
  else .error .wrongSchema

/-- Embeds `DataFrame.renameAll` (lines 405-410): a name list of the wrong
length throws `WrongSchemaError`; otherwise each row is exported positionally
(`row.toArray()`) and rebuilt against the new names, which pass through the
space normalization twice (`__newInstance__` and the constructor). -/
def DataFrame.renameAll (d : DataFrame) (ns : List String) : Except DfError DataFrame :=
  if ns.length ≠ d.columns.length then .error .wrongSchema
  else
    let cols2 := dropSpacesCols (dropSpacesCols ns)
    .ok ⟨d.rows.map (fun r => Row.ofArray cols2 r.toArray), cols2⟩

/-! ### Grouping and joins (`DataFrame._joinByType`/`_join`, lines 114-134) -/

/-- First-appearance deduplication with an explicit seen accumulator: the
behaviour of `[...new Set(list)]` (JavaScript Sets keep insertion order and
ignore re-added elements). -/
def firstDistinctAux {α : Type} [DecidableEq α] (seen : List α) : List α → List α
  | [] => []
  | a :: as =>
    if a ∈ seen then firstDistinctAux seen as
    else a :: firstDistinctAux (a :: seen) as

/-- The distinct elements of a list in first-appearance order. -/
def firstDistinct {α : Type} [DecidableEq α] (l : List α) : List α :=
  firstDistinctAux [] l

/-- The distinct values of column `c` of `d`, in first-appearance order:
the group keys of `d.groupBy(c)`. -/
def keysOf (d : DataFrame) (c : String) : List Value :=
  firstDistinct (d.rows.map (fun r => r.get c))

/-- The child DataFrame of one group: the parent's rows whose key value is
`v`, in original order, under the parent's schema. -/
def groupOf (d : DataFrame) (c : String) (v : Value) : DataFrame :=
  ⟨d.rows.filter (fun r => r.get c = v), d.columns⟩

/-- Modelled from the spec: `d.groupBy(c)` (the `GroupedDataFrame` class of
the missing `groupedDataframe.js`, spec section 4.5) partitions the parent
rows into (key, child DataFrame) pairs in first-appearance key order; each
child shares the parent's schema and keeps row order.  `listGroups()` is the
key list and `toCollection()` the pair list of this representation. -/
def DataFrame.groupBy (d : DataFrame) (c : String) : List (Value × DataFrame) :=
  (keysOf d c).map (fun v => (v, groupOf d c v))

/-- Embeds `DataFrame._joinByType(gdf1, gdf2, type)` (lines 114-124): for the
'in'/'out' types, a group of `gdf1` is kept according to whether its key
occurs among `gdf2`'s keys; for any other type every group is kept. -/
def joinByType (g1 g2 : List (Value × DataFrame)) (t : String) : List DataFrame :=
  if t = "out" ∨ t = "in" then
    let g2Groups := g2.map Prod.fst
    g1.filterMap (fun p =>
      let isContained := g2Groups.contains p.1
      if (if t = "out" then !isContained else isContained) then some p.2 else none)
  else
    g1.map Prod.snd

/-- Embeds `DataFrame.restructure` (lines 394-396): the receiver's rows under
a new column list, through `__newInstance__`. -/
def DataFrame.restructure (d : DataFrame) (cols : List String) : DataFrame :=
  d.newInstanceOfRows d.rows cols

/-- Embeds `Array.prototype.reduce` with no initial value over `union`
(line 133): throws the native empty-reduce `TypeError` on an empty list. -/
def reduceUnion : List DataFrame → Except DfError DataFrame
  | [] => .error .emptyReduce
  | d :: ds => ds.foldlM DataFrame.union d

/-- The group list built inside `_join` (lines 126-133): both sides are
grouped on the join column, each side's groups are selected by its join type
(left side first), and every kept group is restructured to the ordered union
of both schemas. -/
def joinGroups (d1 d2 : DataFrame) (onCol : String) (t1 t2 : String) : List DataFrame :=
  let newColumns := firstDistinct (d1.columns ++ d2.columns)
  (joinByType (d1.groupBy onCol) (d2.groupBy onCol) t1 ++
      joinByType (d2.groupBy onCol) (d1.groupBy onCol) t2).map
    (fun g => g.restructure newColumns)

/-- Embeds `DataFrame._join` (lines 126-134): the selected restructured
groups folded together with `union` and no initial value. -/
def DataFrame.joinImpl (d1 d2 : DataFrame) (onCol : String) (t1 t2 : String) :
    Except DfError DataFrame :=
  reduceUnion (joinGroups d1 d2 onCol t1 t2)

/-- Embeds `DataFrame.innerJoin` (lines 673-675). -/
def DataFrame.innerJoin (d1 d2 : DataFrame) (onCol : String) : Except DfError DataFrame :=
  d1.joinImpl d2 onCol "in" "in"

/-- Embeds `DataFrame.fullJoin` (lines 686-688). -/
def DataFrame.fullJoin (d1 d2 : DataFrame) (onCol : String) : Except DfError DataFrame :=
  d1.joinImpl d2 onCol "" ""

/-- Embeds `DataFrame.outerJoin` (lines 699-701). -/
def DataFrame.outerJoin (d1 d2 : DataFrame) (onCol : String) : Except DfError DataFrame :=
  d1.joinImpl d2 onCol "out" "out"

/-- Embeds `DataFrame.leftJoin` (lines 712-714). -/
def DataFrame.leftJoin (d1 d2 : DataFrame) (onCol : String) : Except DfError DataFrame :=
  d1.joinImpl d2 onCol "" "in"

/-- Embeds `DataFrame.rightJoin` (lines 725-727). -/
def DataFrame.rightJoin (d1 d2 : DataFrame) (onCol : String) : Except DfError DataFrame :=
  d1.joinImpl d2 onCol "in" ""

/-! ### The SQL table registry (`src/modules/sql.js`) -/

/-- The process-wide table registry `SQL.tables`, embedded as an explicit
association list in key insertion order (JavaScript object keys enumerate in
insertion order, and reassignment keeps the original position). -/
abbrev Registry := List (String × DataFrame)

/-- The first argument of `registerTable`, whose constructor-name check
(`df.constructor.name === 'DataFrame'`, sql.js line 72) distinguishes real
DataFrames from any other value. -/
inductive RegValue where
  | df (d : DataFrame)
  | other

/-- Assignment `SQL.tables[tableName] = df` (sql.js line 76): replaces the
value in place when the key exists, else appends the new entry. -/
def setKey : Registry → String → DataFrame → Registry
  | [], n, d => [(n, d)]
  | (k, v) :: rest, n, d =>
    if k = n then (n, d) :: rest else (k, v) :: setKey rest n d

/-- Embeds `SQL.listTables` (sql.js lines 59-61): the registered names. -/
def listTables (tables : Registry) : List String :=
  tables.map Prod.fst

/-- Embeds `SQL.registerTable` (sql.js lines 71-77): a non-DataFrame value
throws `InputTypeError`; an already-registered name without `overwrite`
throws `TableAlreadyExistsError`; otherwise the entry is stored. -/
def registerTable (tables : Registry) (v : RegValue) (name : String) (overwrite : Bool) :
    Except DfError Registry :=
  match v with
  | .other => .error .inputType
  | .df d =>
    if (listTables tables).contains name && !overwrite then .error .tableExists
    else .ok (setKey tables name d)

/-! ### Generic helper lemmas -/

/-- A string without any space character: names untouched by the
constructor's space normalization. -/
def NoSpace (s : String) : Prop :=
  ∀ ch ∈ s.data, ch ≠ ' '

instance (s : String) : Decidable (NoSpace s) := by
  unfold NoSpace; infer_instance

theorem dropFirstSpace_of_noSpace (l : List Char) (h : ∀ ch ∈ l, ch ≠ ' ') :
    dropFirstSpace l = l := by
  induction l with
  | nil => rfl
  | cons c cs ih =>
    have hc : c ≠ ' ' := h c (by simp)
    simp only [dropFirstSpace, if_neg hc]
    rw [ih (fun ch hch => h ch (by simp [hch]))]

theorem dropSpacesCol_of_noSpace (s : String) (h : NoSpace s) : dropSpacesCol s = s := by
  unfold dropSpacesCol
  rw [dropFirstSpace_of_noSpace s.data h]

theorem dropSpacesCols_of_noSpace (cols : List String) (h : ∀ s ∈ cols, NoSpace s) :
    dropSpacesCols cols = cols := by
  unfold dropSpacesCols
  rw [List.map_congr_left (fun s hs => dropSpacesCol_of_noSpace s (h s hs))]
  simp

theorem dropFirstSpace_append_space (l1 l2 : List Char) (h : ∀ ch ∈ l1, ch ≠ ' ') :
    dropFirstSpace (l1 ++ ' ' :: l2) = l1 ++ l2 := by
  induction l1 with
  | nil => simp [dropFirstSpace]
  | cons c cs ih =>
    have hc : c ≠ ' ' := h c (by simp)
    simp only [List.cons_append, dropFirstSpace, if_neg hc, List.append_eq]
    rw [ih (fun ch hch => h ch (by simp [hch]))]

theorem mem_firstDistinctAux {α : Type} [DecidableEq α] :
    ∀ (l seen : List α) (x : α), x ∈ firstDistinctAux seen l ↔ x ∈ l ∧ x ∉ seen := by
  intro l
  induction l with
  | nil => intro seen x; simp [firstDistinctAux]
  | cons a as ih =>
    intro seen x
    by_cases ha : a ∈ seen
    · rw [firstDistinctAux, if_pos ha, ih seen x]
      simp only [List.mem_cons]
      constructor
      · rintro ⟨hx, hns⟩
        exact ⟨Or.inr hx, hns⟩
      · rintro ⟨hx | hx, hns⟩
        · exact absurd (hx ▸ ha) hns
        · exact ⟨hx, hns⟩
    · rw [firstDistinctAux, if_neg ha]
      simp only [List.mem_cons, ih (a :: seen) x]
      constructor
      · rintro (h | ⟨hx, hns⟩)
        · subst h
          exact ⟨Or.inl rfl, ha⟩
        · exact ⟨Or.inr hx, fun hc => hns (Or.inr hc)⟩
      · rintro ⟨hx | hx, hns⟩
        · exact Or.inl hx
        · by_cases hxa : x = a
          · exact Or.inl hxa
          · exact Or.inr ⟨hx, fun hc => by
              rcases hc with h1 | h1
              · exact hxa h1
              · exact hns h1⟩

theorem mem_firstDistinct {α : Type} [DecidableEq α] (x : α) (l : List α) :
    x ∈ firstDistinct l ↔ x ∈ l := by
  unfold firstDistinct
  rw [mem_firstDistinctAux]
  simp

theorem zip_append_pad (cols : List String) :
    ∀ (vals : List Value) (pad : List Value), vals.length = cols.length →
      (cols.zip (vals ++ pad)).map Prod.snd = vals := by
  induction cols with
  | nil =>
    intro vals pad h
    rw [List.length_nil, List.length_eq_zero] at h
    simp [h]
  | cons c cs ih =>
    intro vals pad h
    cases vals with
    | nil => simp at h
    | cons v vs =>
      simp only [List.cons_append, List.zip_cons_cons, List.map_cons]
      rw [ih vs pad (by simpa using h)]

theorem ofArray_toArray (cols : List String) (vals : List Value)
    (h : vals.length = cols.length) : (Row.ofArray cols vals).toArray = vals := by
  unfold Row.ofArray Row.toArray
  exact zip_append_pad cols vals _ h

theorem proj_get (cols : List String) (r : Row) (k : String) :
    (Row.proj cols r).get k = if k ∈ cols then r.get k else Value.undefined := by
  induction cols with
  | nil => simp [Row.proj, Row.get, List.lookup]
  | cons c cs ih =>
    by_cases hk : k = c
    · subst hk
      simp [Row.proj, Row.get, List.lookup]
    · have hbc : (k == c) = false := beq_eq_false_iff_ne.mpr hk
      have hstep : (Row.proj (c :: cs) r).get k = (Row.proj cs r).get k := by
        simp [Row.proj, Row.get, List.lookup, hbc]
      rw [hstep, ih]
      by_cases hm : k ∈ cs
      · rw [if_pos hm, if_pos (List.mem_cons_of_mem c hm)]
      · rw [if_neg hm, if_neg (by simp [hk, hm])]

theorem filterMap_if_filter {α β : Type} (p : α → Bool) (f : α → Option β) :
    ∀ l : List α,
      l.filterMap (fun a => if p a then f a else none) = (l.filter p).filterMap f := by
  intro l
  induction l with
  | nil => rfl
  | cons a as ih =>
    by_cases ha : p a
    · simp only [List.filterMap_cons, List.filter_cons, ha, if_true]
      cases f a <;> simp [List.filterMap_cons, ih]
    · simp only [List.filterMap_cons, List.filter_cons, ha, if_false]
      simpa using ih

theorem filterMap_some_eq_map {α β : Type} (f : α → β) :
    ∀ l : List α, l.filterMap (fun a => some (f a)) = l.map f := by
  intro l
  induction l with
  | nil => rfl
  | cons a as ih => simp [List.filterMap_cons, ih]

theorem filterMap_if_map {α β : Type} (p : α → Bool) (f : α → β) (l : List α) :
    l.filterMap (fun a => if p a then some (f a) else none) = (l.filter p).map f := by
  rw [filterMap_if_filter p (fun a => some (f a)) l]
  exact filterMap_some_eq_map f _

/-! ### Claim C7 — column-name normalization at construction -/

/-- C7 counterexample: the claim says a supplied name containing two spaces
appears in the schema with both spaces removed; the constructor's
`replace(' ', '')` removes only the first one, so the supplied name
`"a b c"` is stored as `"ab c"`, not `"abc"`. -/
theorem constructor_space_counterexample :
    (DataFrame.ofRows [] ["a b c"]).listColumns = ["ab c"] ∧
      ¬(DataFrame.ofRows [] ["a b c"]).listColumns = ["abc"] := by
  constructor
  · rfl
  · decide

/-- C7 (amended): construction normalizes each column name by removing only
the first space character; any later spaces are kept.  For a name split as
`s1 ++ " " ++ s2` with `s1` space-free, the stored name is `s1 ++ s2`. -/
theorem constructor_drops_first_space (data : List (List Value)) (s1 s2 : String)
    (h : NoSpace s1) :
    (DataFrame.ofRows data [s1 ++ " " ++ s2]).listColumns = [s1 ++ s2] := by
  have hsp : (" " : String).data = [' '] := rfl
  have hdata : (s1 ++ " " ++ s2).data = s1.data ++ ' ' :: s2.data := by
    rw [String.data_append, String.data_append, hsp, List.append_assoc]
    rfl
  have hdrop : dropSpacesCol (s1 ++ " " ++ s2) = s1 ++ s2 := by
    unfold dropSpacesCol
    rw [hdata, dropFirstSpace_append_space s1.data s2.data h, ← String.data_append]
  show dropSpacesCols [s1 ++ " " ++ s2] = [s1 ++ s2]
  unfold dropSpacesCols
  rw [List.map_cons, List.map_nil, hdrop]

/-- C7 witness: the amended theorem applied at the concrete name
`"a" ++ " " ++ "b c"`, whose stored form keeps the second space. -/
theorem constructor_drops_first_space_witness :
    (DataFrame.ofRows [] ["a" ++ " " ++ "b c"]).listColumns = ["a" ++ "b c"] :=
  constructor_drops_first_space [] "a" "b c" (by decide)

/-! ### Claim C5 — filter semantics -/

/-- The result shape shared by both filter branches: the kept rows under the
(normalized) receiver schema, or the empty DataFrame with the empty schema
when nothing matched. -/
theorem filter_ok_shape (d : DataFrame) (cond : Condition) (pr : Row → Bool)
    (h : ∀ r, cond.eval r = .ok (pr r)) :
    d.filter cond =
      .ok (if d.rows.filter pr = [] then (⟨[], []⟩ : DataFrame)
           else ⟨d.rows.filter pr, dropSpacesCols d.columns⟩) := by
  have hrows : ∀ rows : List Row, filterRowsE cond.eval rows = .ok (rows.filter pr) := by
    intro rows
    induction rows with
    | nil => rfl
    | cons r rs ih =>
      unfold filterRowsE
      rw [h r, ih, List.filter_cons]
  have hni : d.newInstanceOfRows [] [] = ⟨[], []⟩ := by
    unfold DataFrame.newInstanceOfRows
    rw [if_neg (fun hc => hc.2 rfl)]
    rfl
  unfold DataFrame.filter
  rw [hrows d.rows]
  show Except.ok (if (d.rows.filter pr).length > 0
        then d.newInstanceOfRows (d.rows.filter pr) d.columns
        else d.newInstanceOfRows [] []) = _
  by_cases he : d.rows.filter pr = []
  · rw [he]
    simp [hni]
  · rw [if_neg he]
    have hlen : (d.rows.filter pr).length > 0 := by
      cases hcase : d.rows.filter pr with
      | nil => exact absurd hcase he
      | cons x xs => simp [hcase]
    rw [if_pos hlen]
    unfold DataFrame.newInstanceOfRows
    rw [if_pos ⟨rfl, he⟩]

/-- C5 (amended): for a row-function predicate, and for a non-empty
column-to-value mapping read as the conjunction of its pairs, `filter`
returns exactly the matching rows in original order (so the result count is
at most `d.count()`), and when no row matches the result is the empty
DataFrame with the empty schema.  An empty mapping is excluded (see the C5
counterexample). -/
theorem filter_spec (d : DataFrame) (p : Row → Bool) (q : String × Value)
    (qs : List (String × Value)) :
    (d.filter (.func p) =
      .ok (if d.rows.filter p = [] then (⟨[], []⟩ : DataFrame)
           else ⟨d.rows.filter p, dropSpacesCols d.columns⟩)) ∧
    (d.filter (.mapping (q :: qs)) =
      .ok (if d.rows.filter (fun r => (q :: qs).all fun e => decide (r.get e.1 = e.2)) = []
           then (⟨[], []⟩ : DataFrame)
           else ⟨d.rows.filter (fun r => (q :: qs).all fun e => decide (r.get e.1 = e.2)),
                 dropSpacesCols d.columns⟩)) ∧
    (if d.rows.filter p = [] then (⟨[], []⟩ : DataFrame)
     else ⟨d.rows.filter p, dropSpacesCols d.columns⟩).count ≤ d.count ∧
    (if d.rows.filter (fun r => (q :: qs).all fun e => decide (r.get e.1 = e.2)) = []
     then (⟨[], []⟩ : DataFrame)
     else ⟨d.rows.filter (fun r => (q :: qs).all fun e => decide (r.get e.1 = e.2)),
           dropSpacesCols d.columns⟩).count ≤ d.count := by
  have hfold : ∀ (l : List (String × Value)) (r : Row) (b : Bool),
      l.foldl (fun acc e => acc && decide (r.get e.1 = e.2)) b =
        (b && l.all fun e => decide (r.get e.1 = e.2)) := by
    intro l
    induction l with
    | nil => intro r b; simp
    | cons e es ih =>
      intro r b
      rw [List.foldl_cons, ih r (b && decide (r.get e.1 = e.2))]
      simp [List.all_cons, Bool.and_assoc]
  have hmap : ∀ r, Condition.eval (.mapping (q :: qs)) r =
      .ok ((q :: qs).all fun e => decide (r.get e.1 = e.2)) := by
    intro r
    show Except.ok (qs.foldl (fun acc e => acc && decide (r.get e.1 = e.2))
          (decide (r.get q.1 = q.2))) = _
    rw [hfold qs r _]
    simp [List.all_cons]
  have hcount : ∀ pr : Row → Bool,
      (if d.rows.filter pr = [] then (⟨[], []⟩ : DataFrame)
       else ⟨d.rows.filter pr, dropSpacesCols d.columns⟩).count ≤ d.count := by
    intro pr
    by_cases he : d.rows.filter pr = []
    · rw [if_pos he]
      exact Nat.zero_le _
    · rw [if_neg he]
      exact List.length_filter_le pr d.rows
  exact ⟨filter_ok_shape d (.func p) p (fun r => rfl),
         filter_ok_shape d (.mapping (q :: qs)) _ hmap,
         hcount p, hcount _⟩

/-- C5 counterexample: the claim quantifies over every equality-mapping
predicate, and the empty mapping is one (the conjunction of no pairs, which
should keep every row); on a one-row DataFrame the code instead throws the
native empty-reduce `TypeError`, because the per-row conjunction is built
with `reduce((p, n) => p && n)` over zero entries. -/
theorem filter_empty_mapping_counterexample :
    (DataFrame.ofRows [[Value.num 1]] ["c"]).filter (.mapping []) =
      .error .emptyReduce := by
  rfl

/-! ### Claim C2 — chain fusion equivalence -/

theorem chainRows_eq_seqRows (steps : List Step) :
    ∀ rows : List Row, chainRows steps rows = seqRows steps rows := by
  induction steps with
  | nil =>
    intro rows
    unfold chainRows seqRows
    simp [applySteps]
  | cons s ss ih =>
    intro rows
    cases s with
    | filterStep p =>
      have h1 : chainRows (.filterStep p :: ss) rows =
          chainRows ss (rows.filter p) := by
        unfold chainRows
        rw [show (applySteps (.filterStep p :: ss)) =
              (fun r => if p r then applySteps ss r else none) from rfl]
        exact filterMap_if_filter p (applySteps ss) rows
      rw [h1, ih (rows.filter p)]
      rfl
    | mapStep f =>
      have h1 : chainRows (.mapStep f :: ss) rows = chainRows ss (rows.map f) := by
        unfold chainRows
        rw [List.filterMap_map]
        rfl
      rw [h1, ih (rows.map f)]
      rfl

/-- C2: for every ordered list of pure row steps (each a filter returning a
boolean or a map returning a Row), `d.chain(steps)` produces the same row
sequence, in the same order, as sequentially applying each step as a plain
per-row filter/map pass, and the resulting row count is at most `d.count()`. -/
theorem chain_spec (d : DataFrame) (steps : List Step) :
    (d.chain steps).rows = seqRows steps d.rows ∧ (d.chain steps).count ≤ d.count := by
  have hrows : (d.chain steps).rows = chainRows steps d.rows := by
    unfold DataFrame.chain
    exact newInstanceOfRows_rows d _
  constructor
  · rw [hrows]
    exact chainRows_eq_seqRows steps d.rows
  · show (d.chain steps).rows.length ≤ d.rows.length
    rw [hrows]
    exact List.length_filterMap_le _ _

/-! ### Claim C4 — union cardinality and schema check -/

/-- C4: when the two schemas are identical (same names, same order),
`a.union(b)` returns a DataFrame whose rows are `a`'s rows followed by `b`'s
rows, so its count is the sum of the two counts; on different schemas it
fails with the `SchemaMismatch` condition (`WrongSchemaError`). -/
theorem union_spec (a b : DataFrame) :
    (a.columns = b.columns →
      ∃ j, a.union b = .ok j ∧ j.rows = a.rows ++ b.rows ∧
        j.count = a.count + b.count) ∧
    (a.columns ≠ b.columns → a.union b = .error .wrongSchema) := by
  constructor
  · intro h
    refine ⟨a.newInstanceOfRows (a.rows ++ b.rows) a.columns, ?_, ?_, ?_⟩
    · unfold DataFrame.union
      rw [if_pos h]
    · exact newInstanceOfRows_rows a _
    · show (a.newInstanceOfRows (a.rows ++ b.rows) a.columns).rows.length = _
      rw [newInstanceOfRows_rows a _]
      exact List.length_append _ _
  · intro h
    unfold DataFrame.union
    rw [if_neg h]

/-! ### Claim C6 — sortBy ordering, mixed-type failure, reverse flip -/

/-- The ordering induced on rows by the `sortBy` comparator on column `c`:
the comparator's subtraction result is non-positive. -/
def rowLe (c : String) (r1 r2 : Row) : Prop :=
  Value.sub (r1.get c) (r2.get c) ≤ 0

theorem sub_antisymm (x y : Value) : Value.sub y x = -Value.sub x y := by
  cases x <;> cases y <;> simp [Value.sub]
  case str.str a b =>
    cases ha : a.toInt? <;> cases hb : b.toInt? <;> simp [ha, hb]

theorem jsCompare_ok (c : String) (p n : Row) (v : Int) (h : jsCompare c p n = .ok v) :
    v = Value.sub (p.get c) (n.get c) ∧ (p.get c).typeOf = (n.get c).typeOf := by
  unfold jsCompare at h
  split at h
  · exact ⟨(Except.ok.injEq _ _).mp h.symm, by assumption⟩
  · exact absurd h (by simp)

theorem jsCompare_error (c : String) (p n : Row) (e : DfError)
    (h : jsCompare c p n = .error e) : e = .mixedType := by
  unfold jsCompare at h
  split at h
  · exact absurd h (by simp)
  · exact ((Except.error.injEq _ _).mp h).symm

theorem insertE_error (c : String) (r : Row) :
    ∀ (s : List Row) (e : DfError), insertE c r s = .error e → e = .mixedType := by
  intro s
  induction s with
  | nil => intro e h; exact absurd h (by simp [insertE])
  | cons x xs ih =>
    intro e h
    unfold insertE at h
    split at h
    · rename_i e1 heq
      cases h
      exact jsCompare_error c r x _ heq
    · rename_i v heq
      split at h
      · exact absurd h (by simp)
      · split at h
        · rename_i e2 heq2
          cases h
          exact ih _ heq2
        · exact absurd h (by simp)

theorem insertE_ok_perm (c : String) (r : Row) :
    ∀ (s t : List Row), insertE c r s = .ok t → t.Perm (r :: s) := by
  intro s
  induction s with
  | nil =>
    intro t h
    have ht : t = [r] := ((Except.ok.injEq _ _).mp h).symm
    rw [ht]
  | cons x xs ih =>
    intro t h
    unfold insertE at h
    split at h
    · exact absurd h (by simp)
    · rename_i v heq
      split at h
      · cases h
        exact List.Perm.refl _
      · split at h
        · exact absurd h (by simp)
        · rename_i t2 heq2
          cases h
          exact (List.Perm.cons x (ih t2 heq2)).trans (List.Perm.swap r x xs)

theorem insertE_ok_head (c : String) (r : Row) (s t : List Row)
    (h : insertE c r s = .ok t) :
    t.head? = some r ∨ (s ≠ [] ∧ t.head? = s.head?) := by
  cases s with
  | nil =>
    have ht : t = [r] := ((Except.ok.injEq _ _).mp h).symm
    rw [ht]
    exact Or.inl rfl
  | cons x xs =>
    unfold insertE at h
    split at h
    · exact absurd h (by simp)
    · rename_i v heq
      split at h
      · cases h
        exact Or.inl rfl
      · split at h
        · exact absurd h (by simp)
        · rename_i t2 heq2
          cases h
          exact Or.inr ⟨by simp, rfl⟩

theorem insertE_ok_chain (c : String) (r : Row) :
    ∀ (s t : List Row), List.Chain' (rowLe c) s → insertE c r s = .ok t →
      List.Chain' (rowLe c) t := by
  intro s
  induction s with
  | nil =>
    intro t _ h
    have ht : t = [r] := ((Except.ok.injEq _ _).mp h).symm
    rw [ht]
    exact List.chain'_singleton r
  | cons x xs ih =>
    intro t hchain h
    unfold insertE at h
    split at h
    · exact absurd h (by simp)
    · rename_i v heq
      obtain ⟨hval, htag⟩ := jsCompare_ok c r x v heq
      split at h
      · rename_i hv
        cases h
        rw [List.chain'_cons]
        exact ⟨le_of_lt (hval ▸ hv), hchain⟩
      · rename_i hv
        split at h
        · exact absurd h (by simp)
        · rename_i t2 heq2
          cases h
          rw [List.chain'_cons'] at hchain ⊢
          refine ⟨?_, ih t2 hchain.2 heq2⟩
          intro y hy
          rcases insertE_ok_head c r xs t2 heq2 with hh | ⟨hne, hh⟩
          · rw [hh] at hy
            have hyr : r = y := by simpa using hy
            subst hyr
            show Value.sub (x.get c) (r.get c) ≤ 0
            rw [sub_antisymm (r.get c) (x.get c), ← hval]
            omega
          · rw [hh] at hy
            exact hchain.1 y hy

theorem insertE_ok_headTag (c : String) (r : Row) (x : Row) (xs : List Row)
    (t : List Row) (h : insertE c r (x :: xs) = .ok t) :
    (r.get c).typeOf = (x.get c).typeOf := by
  unfold insertE at h
  split at h
  · exact absurd h (by simp)
  · rename_i v heq
    exact (jsCompare_ok c r x v heq).2

theorem sortRowsE_error (c : String) :
    ∀ (rows : List Row) (e : DfError), sortRowsE c rows = .error e → e = .mixedType := by
  intro rows
  induction rows with
  | nil => intro e h; exact absurd h (by simp [sortRowsE])
  | cons r rs ih =>
    intro e h
    unfold sortRowsE at h
    split at h
    · rename_i e1 heq
      cases h
      exact ih _ heq
    · rename_i s heq
      exact insertE_error c r s e h

theorem sortRowsE_ok_perm (c : String) :
    ∀ (rows out : List Row), sortRowsE c rows = .ok out → out.Perm rows := by
  intro rows
  induction rows with
  | nil =>
    intro out h
    have hout : out = [] := ((Except.ok.injEq _ _).mp h).symm
    rw [hout]
  | cons r rs ih =>
    intro out h
    unfold sortRowsE at h
    split at h
    · exact absurd h (by simp)
    · rename_i s heq
      exact (insertE_ok_perm c r s out h).trans (List.Perm.cons r (ih s heq))

theorem sortRowsE_ok_chain (c : String) :
    ∀ (rows out : List Row), sortRowsE c rows = .ok out →
      List.Chain' (rowLe c) out := by
  intro rows
  induction rows with
  | nil =>
    intro out h
    have hout : out = [] := ((Except.ok.injEq _ _).mp h).symm
    rw [hout]
    exact List.chain'_nil
  | cons r rs ih =>
    intro out h
    unfold sortRowsE at h
    split at h
    · exact absurd h (by simp)
    · rename_i s heq
      exact insertE_ok_chain c r s out (ih s heq) h

theorem sortRowsE_ok_uniform (c : String) :
    ∀ (rows out : List Row), sortRowsE c rows = .ok out →
      ∀ x ∈ rows, ∀ y ∈ rows, (x.get c).typeOf = (y.get c).typeOf := by
  intro rows
  induction rows with
  | nil => intro out _ x hx; exact absurd hx (by simp)
  | cons r rs ih =>
    intro out h
    unfold sortRowsE at h
    split at h
    · exact absurd h (by simp)
    · rename_i s heq
      have hsr : ∀ x ∈ rs, (x.get c).typeOf = (r.get c).typeOf := by
        intro x hx
        cases hs : s with
        | nil =>
          have hperm : s.Perm rs := sortRowsE_ok_perm c rs s heq
          rw [hs] at hperm
          have hrs : rs = [] := hperm.symm.eq_nil
          exact absurd (hrs ▸ hx) (by simp)
        | cons z zs =>
          have hz : z ∈ rs := by
            have hperm := sortRowsE_ok_perm c rs s heq
            exact hperm.mem_iff.mp (by simp [hs])
          have htag := insertE_ok_headTag c r z zs out (hs ▸ h)
          rw [ih s heq x hx z hz, ← htag]
      intro x hx y hy
      rcases List.mem_cons.mp hx with hx1 | hx1 <;>
        rcases List.mem_cons.mp hy with hy1 | hy1
      · rw [hx1, hy1]
      · rw [hx1, hsr y hy1]
      · rw [hy1, hsr x hx1]
      · rw [hsr x hx1, hsr y hy1]

/-- C6: `sortBy` sorts ascending by the numeric-subtraction comparator on the
chosen column: a successful sort returns a permutation of the rows that is
consecutively ordered by the comparator, and its success forces all the
column's values to share one runtime type, so any mixed-type comparison makes
the call fail with the `MixedTypeComparison` condition (`MixedTypeError`);
with `reverse=true` the returned row sequence is exactly the reversal of the
`reverse=false` sequence (the comparator itself is unchanged). -/
theorem sortBy_spec (d : DataFrame) (c : String) :
    Except.map (fun j => j.rows) (d.sortBy c true) =
      Except.map (fun j => j.rows.reverse) (d.sortBy c false) ∧
    (match d.sortBy c false with
     | .ok j => j.rows.Perm d.rows ∧ List.Chain' (rowLe c) j.rows ∧
         ∀ x ∈ d.rows, ∀ y ∈ d.rows, (x.get c).typeOf = (y.get c).typeOf
     | .error e => e = DfError.mixedType) := by
  constructor
  · cases h : sortRowsE c d.rows with
    | error e =>
      have ht : d.sortBy c true = .error e := by
        unfold DataFrame.sortBy
        rw [h]
      have hf : d.sortBy c false = .error e := by
        unfold DataFrame.sortBy
        rw [h]
      rw [ht, hf]
      rfl
    | ok s =>
      have ht : d.sortBy c true = .ok (d.newInstanceOfRows s.reverse d.columns) := by
        unfold DataFrame.sortBy
        rw [h]
        rfl
      have hf : d.sortBy c false = .ok (d.newInstanceOfRows s d.columns) := by
        unfold DataFrame.sortBy
        rw [h]
        rfl
      rw [ht, hf]
      show Except.ok (d.newInstanceOfRows s.reverse d.columns).rows =
        Except.ok (d.newInstanceOfRows s d.columns).rows.reverse
      rw [newInstanceOfRows_rows, newInstanceOfRows_rows]
  · cases h : sortRowsE c d.rows with
    | error e =>
      have hf : d.sortBy c false = .error e := by
        unfold DataFrame.sortBy
        rw [h]
      rw [hf]
      exact sortRowsE_error c d.rows e h
    | ok s =>
      have hf : d.sortBy c false = .ok (d.newInstanceOfRows s d.columns) := by
        unfold DataFrame.sortBy
        rw [h]
        rfl
      rw [hf]
      show (d.newInstanceOfRows s d.columns).rows.Perm d.rows ∧
        List.Chain' (rowLe c) (d.newInstanceOfRows s d.columns).rows ∧
        ∀ x ∈ d.rows, ∀ y ∈ d.rows, (x.get c).typeOf = (y.get c).typeOf
      rw [newInstanceOfRows_rows]
      exact ⟨sortRowsE_ok_perm c d.rows s h, sortRowsE_ok_chain c d.rows s h,
             sortRowsE_ok_uniform c d.rows s h⟩

/-! ### Claim C1 — immutability of the receiver -/

/-- A two-row, one-column DataFrame whose rows are out of order. -/
def c1df : DataFrame := DataFrame.ofRows [[Value.num 2], [Value.num 1]] ["c"]

/-- C1 evidence: `sortBy` sorts `this[__rows__]` in place, so after
`d.sortBy('c')` the receiver's row sequence (hence `d.toArray()`) has
changed, while `d.count()` and `d.listColumns()` are unchanged.  This
contradicts the immutability the library itself documents. -/
theorem sortBy_mutates_receiver :
    sortByReceiverRows c1df "c" false ≠ c1df.rows ∧
    DataFrame.toArray ⟨sortByReceiverRows c1df "c" false, c1df.columns⟩ ≠ c1df.toArray ∧
    (⟨sortByReceiverRows c1df "c" false, c1df.columns⟩ : DataFrame).count = c1df.count ∧
    (⟨sortByReceiverRows c1df "c" false, c1df.columns⟩ : DataFrame).listColumns
      = c1df.listColumns := by
  decide

/-! ### Claim C8 — renameAll length check and positional rename -/

/-- The DataFrame well-formedness invariant of spec section 3: every row is
projected/padded to exactly the DataFrame's schema. -/
def WF (d : DataFrame) : Prop :=
  ∀ r ∈ d.rows, r.entries.map Prod.fst = d.columns

instance (d : DataFrame) : Decidable (WF d) := by
  unfold WF; infer_instance

/-- C8: `renameAll(ns)` fails with the `SchemaMismatch` condition
(`WrongSchemaError`) exactly when `ns` has a different length than the
current column list; on equal lengths it returns a new DataFrame with the
same row data (same `toArray()`, same count) whose column names are `ns`,
positionally.  Stated for space-free names, which the normalization of
`__newInstance__` and the constructor leaves unchanged. -/
theorem renameAll_spec (d : DataFrame) (ns : List String) (hw : WF d)
    (hs : ∀ n ∈ ns, NoSpace n) :
    (d.renameAll ns = .error .wrongSchema ↔ ns.length ≠ d.columns.length) ∧
    (∀ _h : ns.length = d.columns.length,
      ∃ j, d.renameAll ns = .ok j ∧ j.columns = ns ∧ j.toArray = d.toArray ∧
        j.count = d.count) := by
  have hns2 : dropSpacesCols (dropSpacesCols ns) = ns := by
    rw [dropSpacesCols_of_noSpace ns hs, dropSpacesCols_of_noSpace ns hs]
  constructor
  · constructor
    · intro h
      by_cases hl : ns.length ≠ d.columns.length
      · exact hl
      · exfalso
        unfold DataFrame.renameAll at h
        rw [if_neg hl] at h
        simp at h
    · intro h
      unfold DataFrame.renameAll
      rw [if_pos h]
  · intro h
    have hlen : ¬ns.length ≠ d.columns.length := fun hc => hc h
    refine ⟨⟨d.rows.map (fun r =>
        Row.ofArray (dropSpacesCols (dropSpacesCols ns)) r.toArray),
        dropSpacesCols (dropSpacesCols ns)⟩, ?_, ?_, ?_, ?_⟩
    · unfold DataFrame.renameAll
      rw [if_neg hlen]
    · exact hns2
    · show List.map Row.toArray (d.rows.map fun r =>
          Row.ofArray (dropSpacesCols (dropSpacesCols ns)) r.toArray) =
        d.rows.map Row.toArray
      rw [List.map_map]
      apply List.map_congr_left
      intro r hr
      show Row.toArray (Row.ofArray (dropSpacesCols (dropSpacesCols ns)) r.toArray)
        = r.toArray
      rw [hns2]
      apply ofArray_toArray
      have h1 : r.entries.length = d.columns.length := by
        have h2 := congrArg List.length (hw r hr)
        simpa using h2
      show r.toArray.length = ns.length
      unfold Row.toArray
      rw [List.length_map, h1, h]
    · show (List.map _ d.rows).length = d.rows.length
      exact List.length_map d.rows _

/-! ### Claim C9 — the SQL table registry -/

theorem mem_listTables_setKey (tables : Registry) (name : String) (d : DataFrame) :
    name ∈ listTables (setKey tables name d) := by
  induction tables with
  | nil => simp [setKey, listTables]
  | cons kv rest ih =>
    obtain ⟨k, v⟩ := kv
    unfold setKey
    by_cases hk : k = name
    · rw [if_pos hk]
      simp [listTables]
    · rw [if_neg hk]
      show name ∈ listTables ((k, v) :: setKey rest name d)
      simp only [listTables, List.map_cons, List.mem_cons]
      exact Or.inr ih

theorem lookup_setKey (tables : Registry) (name : String) (d : DataFrame) :
    (setKey tables name d).lookup name = some d := by
  induction tables with
  | nil => simp [setKey, List.lookup]
  | cons kv rest ih =>
    obtain ⟨k, v⟩ := kv
    unfold setKey
    by_cases hk : k = name
    · rw [if_pos hk]
      simp [List.lookup]
    · rw [if_neg hk]
      have hbc : (name == k) = false := beq_eq_false_iff_ne.mpr (fun hc => hk hc.symm)
      simp [List.lookup, hbc, ih]

/-- C9: for a DataFrame argument, `registerTable` fails with the
`TableAlreadyExists` condition exactly when the name is already registered
and `overwrite` is false, and otherwise stores (or replaces) the entry, after
which `listTables()` contains the name and the registry maps it to the given
DataFrame; a non-DataFrame argument fails with the `InvalidInputType`
condition. -/
theorem registerTable_spec (tables : Registry) (d : DataFrame) (name : String)
    (ow : Bool) :
    (registerTable tables (.df d) name ow =
      if name ∈ listTables tables ∧ ow = false then .error .tableExists
      else .ok (setKey tables name d)) ∧
    name ∈ listTables (setKey tables name d) ∧
    (setKey tables name d).lookup name = some d ∧
    registerTable tables .other name ow = .error .inputType := by
  refine ⟨?_, mem_listTables_setKey tables name d, lookup_setKey tables name d, rfl⟩
  show (if (listTables tables).contains name && !ow
        then (.error .tableExists : Except DfError Registry)
        else .ok (setKey tables name d)) = _
  by_cases hm : name ∈ listTables tables <;> cases ow <;> simp [hm]

/-! ### Claims C3 and C10 — the join engine -/

theorem joinByType_in (g1 g2 : List (Value × DataFrame)) :
    joinByType g1 g2 "in" =
      (g1.filter (fun p => (g2.map Prod.fst).contains p.1)).map Prod.snd := by
  show g1.filterMap
      (fun p => if (g2.map Prod.fst).contains p.1 then some p.2 else none) = _
  exact filterMap_if_map _ _ _

theorem joinByType_out (g1 g2 : List (Value × DataFrame)) :
    joinByType g1 g2 "out" =
      (g1.filter (fun p => !(g2.map Prod.fst).contains p.1)).map Prod.snd := by
  show g1.filterMap
      (fun p => if !(g2.map Prod.fst).contains p.1 then some p.2 else none) = _
  exact filterMap_if_map _ _ _

theorem joinByType_all (g1 g2 : List (Value × DataFrame)) :
    joinByType g1 g2 "" = g1.map Prod.snd := rfl

theorem union_ok_rows (a b j : DataFrame) (h : a.union b = .ok j) :
    j.rows = a.rows ++ b.rows := by
  unfold DataFrame.union at h
  split at h
  · cases h
    exact newInstanceOfRows_rows a _
  · exact absurd h (by simp)

theorem foldlM_union_mem :
    ∀ (ds : List DataFrame) (acc j : DataFrame),
      List.foldlM DataFrame.union acc ds = .ok j →
      ∀ r ∈ j.rows, r ∈ acc.rows ∨ ∃ g ∈ ds, r ∈ g.rows := by
  intro ds
  induction ds with
  | nil =>
    intro acc j h r hr
    have hacc : (Except.ok acc : Except DfError DataFrame) = .ok j := h
    have : acc = j := (Except.ok.injEq _ _).mp hacc
    exact Or.inl (this ▸ hr)
  | cons g gs ih =>
    intro acc j h r hr
    rw [List.foldlM_cons] at h
    cases hu : acc.union g with
    | error e =>
      rw [hu] at h
      have hfalse : (Except.error e : Except DfError DataFrame) = .ok j := h
      exact absurd hfalse (by simp)
    | ok acc2 =>
      rw [hu] at h
      have h2 : List.foldlM DataFrame.union acc2 gs = .ok j := h
      rcases ih acc2 j h2 r hr with hacc | ⟨g2, hg2, hrg⟩
      · rw [union_ok_rows acc g acc2 hu] at hacc
        rcases List.mem_append.mp hacc with h3 | h3
        · exact Or.inl h3
        · exact Or.inr ⟨g, by simp, h3⟩
      · exact Or.inr ⟨g2, by simp [hg2], hrg⟩

theorem reduceUnion_mem (gs : List DataFrame) (j : DataFrame)
    (h : reduceUnion gs = .ok j) : ∀ r ∈ j.rows, ∃ g ∈ gs, r ∈ g.rows := by
  cases gs with
  | nil => exact absurd h (by simp [reduceUnion])
  | cons g0 rest =>
    intro r hr
    unfold reduceUnion at h
    rcases foldlM_union_mem rest g0 j h r hr with h1 | ⟨g2, hg2, hrg⟩
    · exact ⟨g0, by simp, h1⟩
    · exact ⟨g2, by simp [hg2], hrg⟩

theorem groupBy_keys (d : DataFrame) (c : String) :
    (d.groupBy c).map Prod.fst = keysOf d c := by
  unfold DataFrame.groupBy
  rw [List.map_map]
  show (keysOf d c).map (fun v => v) = keysOf d c
  exact List.map_id' (keysOf d c)

theorem mem_groupBy (d : DataFrame) (c : String) (p : Value × DataFrame)
    (h : p ∈ d.groupBy c) : p.1 ∈ keysOf d c ∧ p.2 = groupOf d c p.1 := by
  unfold DataFrame.groupBy at h
  rcases List.mem_map.mp h with ⟨v, hv, hp⟩
  constructor
  · rw [← hp]
    exact hv
  · rw [← hp]

theorem groupOf_mem (d : DataFrame) (c : String) (v : Value) (r : Row)
    (h : r ∈ (groupOf d c v).rows) : r ∈ d.rows ∧ r.get c = v := by
  unfold groupOf at h
  have h2 := List.mem_filter.mp h
  exact ⟨h2.1, by simpa using h2.2⟩

theorem mem_keysOf (d : DataFrame) (c : String) (v : Value) :
    v ∈ keysOf d c ↔ v ∈ d.toArrayCol c := by
  unfold keysOf DataFrame.toArrayCol
  exact mem_firstDistinct v _

theorem restructure_get (g : DataFrame) (cols : List String) (k : String)
    (hns : ∀ s ∈ cols, NoSpace s) (hk : k ∈ cols) (r : Row)
    (hr : r ∈ (g.restructure cols).rows) :
    ∃ r0 ∈ g.rows, r.get k = r0.get k := by
  unfold DataFrame.restructure DataFrame.newInstanceOfRows at hr
  split at hr
  · exact ⟨r, hr, rfl⟩
  · have hcols2 : dropSpacesCols (dropSpacesCols cols) = cols := by
      rw [dropSpacesCols_of_noSpace cols hns, dropSpacesCols_of_noSpace cols hns]
    have hr2 : r ∈ g.rows.map (Row.proj (dropSpacesCols (dropSpacesCols cols))) := hr
    rw [hcols2] at hr2
    rcases List.mem_map.mp hr2 with ⟨r0, hr0, hpr⟩
    refine ⟨r0, hr0, ?_⟩
    rw [← hpr, proj_get, if_pos hk]

theorem newColumns_noSpace (a b : DataFrame) (hna : ∀ s ∈ a.columns, NoSpace s)
    (hnb : ∀ s ∈ b.columns, NoSpace s) :
    ∀ s ∈ firstDistinct (a.columns ++ b.columns), NoSpace s := by
  intro s hs
  rcases List.mem_append.mp ((mem_firstDistinct s _).mp hs) with h | h
  · exact hna s h
  · exact hnb s h

/-- C3: the join mode table.  The group-selection primitive keeps, for types
'in'/'out'/'', exactly the groups whose key is present in / absent from / any
with respect to the other side's key set; the five public modes dispatch to
the primitive with the mode table's type pairs (left side listed first); and
every row of `a.innerJoin(b, k)` carries a `k`-value that occurs in column
`k` of both `a` and `b`.  Stated for space-free schemas with `k` a column of
`a`. -/
theorem joinModes_spec (a b : DataFrame) (k : String)
    (hna : ∀ s ∈ a.columns, NoSpace s) (hnb : ∀ s ∈ b.columns, NoSpace s)
    (hka : k ∈ a.columns) :
    (∀ g1 g2 : List (Value × DataFrame),
      joinByType g1 g2 "in" =
        (g1.filter (fun p => (g2.map Prod.fst).contains p.1)).map Prod.snd ∧
      joinByType g1 g2 "out" =
        (g1.filter (fun p => !(g2.map Prod.fst).contains p.1)).map Prod.snd ∧
      joinByType g1 g2 "" = g1.map Prod.snd) ∧
    (a.innerJoin b k = a.joinImpl b k "in" "in" ∧
     a.leftJoin b k = a.joinImpl b k "" "in" ∧
     a.rightJoin b k = a.joinImpl b k "in" "" ∧
     a.outerJoin b k = a.joinImpl b k "out" "out" ∧
     a.fullJoin b k = a.joinImpl b k "" "") ∧
    ∀ j, a.innerJoin b k = .ok j →
      ∀ r ∈ j.rows, r.get k ∈ a.toArrayCol k ∧ r.get k ∈ b.toArrayCol k := by
  refine ⟨fun g1 g2 => ⟨joinByType_in g1 g2, joinByType_out g1 g2, joinByType_all g1 g2⟩,
          ⟨rfl, rfl, rfl, rfl, rfl⟩, ?_⟩
  intro j hj r hr
  have hmem := reduceUnion_mem _ j hj r hr
  rcases hmem with ⟨g', hg', hrg⟩
  unfold joinGroups at hg'
  rcases List.mem_map.mp hg' with ⟨g, hg, hgr⟩
  have hns2 := newColumns_noSpace a b hna hnb
  have hk2 : k ∈ firstDistinct (a.columns ++ b.columns) :=
    (mem_firstDistinct k _).mpr (List.mem_append.mpr (Or.inl hka))
  rw [← hgr] at hrg
  obtain ⟨r0, hr0, hget⟩ :=
    restructure_get g (firstDistinct (a.columns ++ b.columns)) k hns2 hk2 r hrg
  rcases List.mem_append.mp hg with hgl | hgr2
  · rw [joinByType_in] at hgl
    rcases List.mem_map.mp hgl with ⟨p, hp, hps⟩
    have hpf := List.mem_filter.mp hp
    obtain ⟨hpk, hpg⟩ := mem_groupBy a k p hpf.1
    rw [← hps, hpg] at hr0
    obtain ⟨hr0a, hr0k⟩ := groupOf_mem a k p.1 r0 hr0
    constructor
    · rw [hget, hr0k]
      exact (mem_keysOf a k p.1).mp hpk
    · rw [hget, hr0k]
      have hcont : p.1 ∈ (b.groupBy k).map Prod.fst := by simpa using hpf.2
      rw [groupBy_keys b k] at hcont
      exact (mem_keysOf b k p.1).mp hcont
  · rw [joinByType_in] at hgr2
    rcases List.mem_map.mp hgr2 with ⟨p, hp, hps⟩
    have hpf := List.mem_filter.mp hp
    obtain ⟨hpk, hpg⟩ := mem_groupBy b k p hpf.1
    rw [← hps, hpg] at hr0
    obtain ⟨hr0b, hr0k⟩ := groupOf_mem b k p.1 r0 hr0
    constructor
    · rw [hget, hr0k]
      have hcont : p.1 ∈ (a.groupBy k).map Prod.fst := by simpa using hpf.2
      rw [groupBy_keys a k] at hcont
      exact (mem_keysOf a k p.1).mp hcont
    · rw [hget, hr0k]
      exact (mem_keysOf b k p.1).mp hpk

/-- C10: when the two key sets are disjoint, the inner join keeps no group at
all, and the `reduce`-with-no-initial-value fold over `union` throws the
native empty-reduce `TypeError` instead of producing an empty DataFrame. -/
theorem innerJoin_disjoint (a b : DataFrame) (k : String)
    (h : ∀ v ∈ keysOf a k, v ∉ keysOf b k) :
    a.innerJoin b k = .error .emptyReduce := by
  show reduceUnion (joinGroups a b k "in" "in") = _
  have h1 : joinByType (a.groupBy k) (b.groupBy k) "in" = [] := by
    rw [joinByType_in]
    have hf : (a.groupBy k).filter
        (fun p => ((b.groupBy k).map Prod.fst).contains p.1) = [] := by
      rw [List.filter_eq_nil_iff]
      intro p hp
      obtain ⟨hpk, _⟩ := mem_groupBy a k p hp
      rw [groupBy_keys b k]
      intro hc
      exact h p.1 hpk (List.elem_iff.mp hc)
    rw [hf]
    rfl
  have h2 : joinByType (b.groupBy k) (a.groupBy k) "in" = [] := by
    rw [joinByType_in]
    have hf : (b.groupBy k).filter
        (fun p => ((a.groupBy k).map Prod.fst).contains p.1) = [] := by
      rw [List.filter_eq_nil_iff]
      intro p hp
      obtain ⟨hpk, _⟩ := mem_groupBy b k p hp
      rw [groupBy_keys a k]
      intro hc
      exact h p.1 (List.elem_iff.mp hc) hpk
    rw [hf]
    rfl
  unfold joinGroups
  rw [h1, h2]
  rfl

/-! ### Concrete witnesses -/

/-- The left side of the spec's inner-join example scenario. -/
def j3a : DataFrame := DataFrame.ofRows [[Value.num 1, Value.str "L"]] ["id", "x"]

/-- The right side of the spec's inner-join example scenario. -/
def j3b : DataFrame :=
  DataFrame.ofRows [[Value.num 1, Value.str "R"], [Value.num 2, Value.str "R2"]] ["id", "y"]

/-- The inner join of `j3a` and `j3b` on `id` as the code computes it. -/
def j3result : DataFrame :=
  ⟨[⟨[("id", Value.num 1), ("x", Value.str "L"), ("y", Value.undefined)]⟩,
    ⟨[("id", Value.num 1), ("x", Value.undefined), ("y", Value.str "R")]⟩],
   ["id", "x", "y"]⟩

/-- C3 witness: the mode-table theorem applied to the spec's example
scenario, with the join-inclusion consequence checked on the concrete
result. -/
theorem joinModes_spec_witness :
    j3a.innerJoin j3b "id" = .ok j3result ∧
    ∀ r ∈ j3result.rows,
      r.get "id" ∈ j3a.toArrayCol "id" ∧ r.get "id" ∈ j3b.toArrayCol "id" := by
  have h := (joinModes_spec j3a j3b "id" (by decide) (by decide) (by decide)).2.2
  have hok : j3a.innerJoin j3b "id" = .ok j3result := by rfl
  exact ⟨hok, fun r hr => h j3result hok r hr⟩

def j10a : DataFrame := DataFrame.ofRows [[Value.num 1]] ["k"]

def j10b : DataFrame := DataFrame.ofRows [[Value.num 2]] ["k"]

/-- C10 witness: two one-row DataFrames with disjoint key sets make
`innerJoin` throw the empty-reduce condition. -/
theorem innerJoin_disjoint_witness :
    j10a.innerJoin j10b "k" = .error .emptyReduce :=
  innerJoin_disjoint j10a j10b "k" (by decide)

def u4a : DataFrame := DataFrame.ofRows [[Value.num 1]] ["c"]

def u4b : DataFrame := DataFrame.ofRows [[Value.num 2], [Value.num 3]] ["c"]

def u4c : DataFrame := DataFrame.ofRows [] ["d"]

/-- C4 witness: a matching-schema union concatenates and adds the counts; a
mismatched-schema union fails with the `SchemaMismatch` condition. -/
theorem union_spec_witness :
    (∃ j, u4a.union u4b = .ok j ∧ j.rows = u4a.rows ++ u4b.rows ∧
      j.count = u4a.count + u4b.count) ∧
    u4a.union u4c = .error .wrongSchema :=
  ⟨(union_spec u4a u4b).1 (by decide), (union_spec u4a u4c).2 (by decide)⟩

def r8d : DataFrame := DataFrame.ofRows [[Value.num 1, Value.num 2]] ["a", "b"]

/-- C8 witness: the renameAll theorem applied to a concrete two-column
DataFrame and a two-name replacement list. -/
theorem renameAll_spec_witness :
    (r8d.renameAll ["x", "y"] = .error .wrongSchema ↔
      (["x", "y"] : List String).length ≠ r8d.columns.length) ∧
    (∀ _h : (["x", "y"] : List String).length = r8d.columns.length,
      ∃ j, r8d.renameAll ["x", "y"] = .ok j ∧ j.columns = ["x", "y"] ∧
        j.toArray = r8d.toArray ∧ j.count = r8d.count) :=
  renameAll_spec r8d ["x", "y"] (by decide) (by decide)
